import Mathlib

/-!
Verification of the calendar-extraction core of `shinbukan-ics` (`src/main.rs`).

The development shallowly embeds the per-cell extraction algorithm, its event
data model, the time-normalization heuristic, the per-month coverage check and
the deterministic ICS serialization.  Rust panics (`unwrap` on `None`/`Err`,
out-of-bounds indexing, arithmetic underflow) are modelled by `Except.error`
with a message describing the panic; machine integers are `Nat` with explicit
`% 2 ^ 64` where overflow matters.  HTML nodes are modelled as an inductive
tree; the `scraper` crate's selection of the grid's cells is taken as the
given list of per-cell child-node lists, exactly what `parse_cell` consumes.
-/

namespace Shinbukan

/-- An HTML DOM node as seen by `parse_cell` through the `scraper` crate:
an element with its tag name, attributes and child subtrees, a text node,
or any other node kind (comment, doctype, ...) abbreviated by a description
string (standing for the `Debug` rendering the Rust code interpolates). -/
inductive Node where
  | element : String → List (String × String) → List Node → Node
  | text : String → Node
  | other : String → Node

/-- Embeds `struct Time` from the source: hours and minutes, as parsed
(`usize` fields, no range validation at construction). -/
structure Time where
  hours : Nat
  minutes : Nat
deriving DecidableEq

/-- Embeds `enum Event`: a timed event or a full-day event, in source
declaration order (`Timed` first, so its discriminant is 0). -/
inductive Event where
  | Timed : Nat → Time → Time → String → Event
  | FullDay : Nat → String → Event
deriving DecidableEq

/-- The day field of an event (both variants carry one). -/
def Event.day : Event → Nat
  | .Timed d _ _ _ => d
  | .FullDay d _ => d

/-- The label (`text`) field of an event. -/
def Event.text : Event → String
  | .Timed _ _ _ s => s
  | .FullDay _ s => s

/-- Embeds `Event::append`: push a single space, then the given text, onto the
event's label, for either variant. -/
def Event.append : Event → String → Event
  | .Timed d f t s, a => .Timed d f t (s ++ " " ++ a)
  | .FullDay d s, a => .FullDay d (s ++ " " ++ a)

/-- The parse errors the source records through `MonthResult::error`.  The
source uses `anyhow!` format strings; each distinct format string becomes one
constructor, carrying the interpolated day number and context text. -/
inductive ParseError where
  | unexpectedElement : Nat → String → ParseError
  | unexpectedNode : Nat → String → ParseError
  | parsedTwice : Nat → ParseError
  | didNotParse : Nat → ParseError
deriving DecidableEq

/-- Embeds `struct MonthResult`: one month's year, month, collected events
(insertion order) and collected errors. -/
structure MonthResult where
  year : Nat
  month : Nat
  events : List Event
  errors : List ParseError
deriving DecidableEq

instance {ε α : Type} [DecidableEq ε] [DecidableEq α] : DecidableEq (Except ε α) := fun x y =>
  match x, y with
  | .ok a, .ok b => if h : a = b then .isTrue (by rw [h]) else .isFalse (by simp [h])
  | .error a, .error b => if h : a = b then .isTrue (by rw [h]) else .isFalse (by simp [h])
  | .ok _, .error _ => .isFalse (by simp)
  | .error _, .ok _ => .isFalse (by simp)

/-- Embeds `MonthResult::new`. -/
def MonthResult.new (year month : Nat) : MonthResult :=
  { year := year, month := month, events := [], errors := [] }

/-- Embeds `MonthResult::event`: the time normalization (hours below 8 denote
afternoon/evening, so 12 is added) is applied independently to each endpoint,
then a `Timed` event is pushed. -/
def MonthResult.event (res : MonthResult) (day : Nat) (fromT toT : Time)
    (text : String) : MonthResult :=
  let fromT := if fromT.hours < 8 then { fromT with hours := fromT.hours + 12 } else fromT
  let toT := if toT.hours < 8 then { toT with hours := toT.hours + 12 } else toT
  { res with events := res.events ++ [.Timed day fromT toT text] }

/-- Embeds `MonthResult::full_day_event`. -/
def MonthResult.full_day_event (res : MonthResult) (day : Nat) (text : String) :
    MonthResult :=
  { res with events := res.events ++ [.FullDay day text] }

/-- Replace the last element of an event list by itself with `text` appended;
`none` when the list is empty (the `last_mut()` lookup fails). -/
def setLastAppended : List Event → String → Option (List Event)
  | [], _ => none
  | [e], t => some [e.append t]
  | e :: e2 :: rest, t => (setLastAppended (e2 :: rest) t).map (e :: ·)

/-- Embeds `MonthResult::append_to_last_event`: `self.events.last_mut().unwrap()`
panics when no event has been collected yet; otherwise the last collected
event's label is mutated in place. -/
def MonthResult.append_to_last_event (res : MonthResult) (text : String) :
    Except String MonthResult :=
  match setLastAppended res.events text with
  | none => .error "panic: unwrap on None"
  | some evs => .ok { res with events := evs }

/-- Embeds `MonthResult::error`: push a parse error. -/
def MonthResult.error (res : MonthResult) (e : ParseError) : MonthResult :=
  { res with errors := res.errors ++ [e] }

/-- Gregorian leap-year rule, as computed by chrono's `NaiveDate`. -/
def isLeap (y : Nat) : Bool :=
  y % 4 == 0 && (y % 100 != 0 || y % 400 == 0)

/-- Embeds `MonthResult::days_in_month`'s chrono date arithmetic
(`first_day + Months::new(1) - first_day`): the Gregorian month length.
Faithful for `1 ≤ m ≤ 12`, the only month numbers the program constructs
(they come from chrono dates); chrono would panic on others. -/
def days_in_month (y m : Nat) : Nat :=
  if m = 2 then (if isLeap y then 29 else 28)
  else if m = 4 ∨ m = 6 ∨ m = 9 ∨ m = 11 then 30
  else 31

/-- Embeds `MonthResult::days_in_month` as the source's method. -/
def MonthResult.days_in_month (res : MonthResult) : Nat :=
  Shinbukan.days_in_month res.year res.month

/-- Whitespace as trimmed by `str::trim` (restricted to the ASCII whitespace
appearing in the grid's text nodes). -/
def isWS (c : Char) : Bool :=
  c == ' ' || c == '\t' || c == '\n' || c == '\r'

/-- Character-list version of `str::trim`. -/
def trimChars (l : List Char) : List Char :=
  ((l.dropWhile isWS).reverse.dropWhile isWS).reverse

/-- Embeds `str::trim`. -/
def trim (s : String) : String :=
  ⟨trimChars s.data⟩

/-- Character-list version of `str::split_once`: split at the first character
satisfying `p`, or `none` when no character does. -/
def splitOnceAux (p : Char → Bool) : List Char → Option (List Char × List Char)
  | [] => none
  | c :: rest =>
    if p c then some ([], rest)
    else (splitOnceAux p rest).map (fun q => (c :: q.1, q.2))

/-- Embeds `str::split_once` (for a single-character or character-set pattern). -/
def splitOnce (p : Char → Bool) (s : String) : Option (String × String) :=
  (splitOnceAux p s.data).map (fun q => (⟨q.1⟩, ⟨q.2⟩))

/-- Accumulate the decimal value of a digit string; `none` on the first
non-digit character. -/
def digitsValAux : Nat → List Char → Option Nat
  | acc, [] => some acc
  | acc, c :: rest =>
    if c.isDigit then digitsValAux (acc * 10 + (c.toNat - 48)) rest else none

/-- Strip one optional leading plus sign. -/
def stripPlus (l : List Char) : List Char :=
  match l with
  | [] => []
  | c :: rest => if c = '+' then rest else c :: rest

/-- Embeds `str::parse::<usize>()`: an optional leading plus sign, then at
least one ASCII digit, with the value required to fit in 64 bits. -/
def parseUsize (s : String) : Option Nat :=
  if (stripPlus s.data).isEmpty then none
  else
    match digitsValAux 0 (stripPlus s.data) with
    | some v => if v < 2 ^ 64 then some v else none
    | none => none

/-- Embeds `parse_time`: `"H"` or `"H:M"`, each component parsed with
`parse().unwrap()` (so a non-integer component panics); no range validation. -/
def parse_time (time : String) : Except String Time :=
  match splitOnce (fun c => c == ':') time with
  | none =>
    match parseUsize time with
    | some h => .ok { hours := h, minutes := 0 }
    | none => .error "panic: unwrap on None"
  | some q =>
    match parseUsize q.1 with
    | some h =>
      match parseUsize q.2 with
      | some m => .ok { hours := h, minutes := m }
      | none => .error "panic: unwrap on None"
    | none => .error "panic: unwrap on None"

/-- Embeds `get_day_number`: `None` for a non-text first child, and
`txt.trim().parse().unwrap()` — a panic on unparseable text — otherwise. -/
def get_day_number (n : Node) : Except String (Option Nat) :=
  match n with
  | .text txt =>
    match parseUsize (trim txt) with
    | some v => .ok (some v)
    | none => .error "panic: unwrap on None"
  | _ => .ok none

/-- First attribute value for the given name, as `scraper`'s `Element::attr`. -/
def attr (attrs : List (String × String)) (name : String) : Option String :=
  (attrs.find? (fun q => q.1 == name)).map (fun q => q.2)

mutual

/-- The text content of every text node in a subtree, in document order —
what `c.descendants()` visits inside a red `font` element (the element's own
value is not a text node, so only descendant text is collected). -/
def descTexts : Node → List String
  | .text s => [s]
  | .other _ => []
  | .element _ _ cs => descTextsL cs

/-- Concatenation of `descTexts` over a forest, in order. -/
def descTextsL : List Node → List String
  | [] => []
  | n :: ns => descTexts n ++ descTextsL ns

end

/-- Append each collected text to the month's last event in order, as the
`for n in c.descendants()` loop does. -/
def appendAll (res : MonthResult) : List String → Except String MonthResult
  | [] => .ok res
  | t :: ts =>
    match res.append_to_last_event t with
    | .error e => .error e
    | .ok res1 => appendAll res1 ts

/-- Embeds the text-node arm of `parse_cell`'s scan (its argument is the
already-trimmed, non-empty text): split at the first space into head/rest;
a head that splits on `-` or `~` yields a `Timed` event from the two parsed
endpoints, otherwise the full text becomes a `FullDay` event. -/
def classifyText (res : MonthResult) (day_num : Nat) (txt : String) :
    Except String MonthResult :=
  match splitOnce (fun c => c == ' ') txt with
  | none => .ok (res.full_day_event day_num txt)
  | some q =>
    match splitOnce (fun c => c == '-' || c == '~') q.1 with
    | none => .ok (res.full_day_event day_num txt)
    | some r =>
      match parse_time r.1 with
      | .error e => .error e
      | .ok fromT =>
        match parse_time r.2 with
        | .error e => .error e
        | .ok toT => .ok (res.event day_num fromT toT q.2)

/-- Embeds the `while let Some(c) = children.next()` loop of `parse_cell`:
dispatch each remaining child on node kind — `br` and small (`size="-1"`)
`font` elements are skipped, red (`color="red"`) `font` elements append their
descendant text to the last collected event, other elements and non-text
non-element nodes record errors, and non-empty trimmed text is classified. -/
def scanChildren (day_num : Nat) (res : MonthResult) :
    List Node → Except String MonthResult
  | [] => .ok res
  | c :: rest =>
    match c with
    | .element name attrs children =>
      if name = "br" then scanChildren day_num res rest
      else if name = "font" ∧ attr attrs "size" = some "-1" then
        scanChildren day_num res rest
      else if name = "font" ∧ attr attrs "color" = some "red" then
        match appendAll res (descTextsL children) with
        | .error e => .error e
        | .ok res1 => scanChildren day_num res1 rest
      else scanChildren day_num (res.error (.unexpectedElement day_num name)) rest
    | .text s =>
      if trim s = "" then scanChildren day_num res rest
      else
        match classifyText res day_num (trim s) with
        | .error e => .error e
        | .ok res1 => scanChildren day_num res1 rest
    | .other d => scanChildren day_num (res.error (.unexpectedNode day_num d)) rest

/-- Embeds `parse_cell`: a cell is its ordered child-node list; a missing or
non-text first child means "not a day cell" (`None`, silent), a text first
child is parsed as the day number (panicking if unparseable), and the
remaining children are scanned. -/
def parse_cell (res : MonthResult) (cell : List Node) :
    Except String (MonthResult × Option Nat) :=
  match cell with
  | [] => .ok (res, none)
  | first :: rest =>
    match get_day_number first with
    | .error e => .error e
    | .ok none => .ok (res, none)
    | .ok (some day_num) =>
      match scanChildren day_num res rest with
      | .error e => .error e
      | .ok res1 => .ok (res1, some day_num)

/-- Embeds the coverage update in `parse_calendar`'s cell loop:
`if !parsed_days[day - 1] { parsed_days[day - 1] = true } else { error }`,
with `day = 0` underflowing the index computation and an out-of-range index
panicking. -/
def updateDay (res : MonthResult) (parsed : List Bool) (day : Nat) :
    Except String (MonthResult × List Bool) :=
  if day = 0 then .error "panic: subtract overflow"
  else if day - 1 < parsed.length then
    if parsed.getD (day - 1) false then
      .ok (res.error (.parsedTwice day), parsed)
    else .ok (res, parsed.set (day - 1) true)
  else .error "panic: index out of bounds"

/-- The per-cell loop of `parse_calendar` over the selected cells, threading
the month accumulator and the `parsed_days` coverage array. -/
def parse_calendar_go (res : MonthResult) (parsed : List Bool) :
    List (List Node) → Except String (MonthResult × List Bool)
  | [] => .ok (res, parsed)
  | cell :: rest =>
    match parse_cell res cell with
    | .error e => .error e
    | .ok q =>
      match q.2 with
      | none => parse_calendar_go q.1 parsed rest
      | some day =>
        match updateDay q.1 parsed day with
        | .error e => .error e
        | .ok q2 => parse_calendar_go q2.1 q2.2 rest

/-- The errors recorded by `parse_calendar`'s final loop: one
`didNotParse (day + 1)` per uncovered index, in day order; `i` is the index
of the first flag in the remaining list. -/
def missingErrors : Nat → List Bool → List ParseError
  | _, [] => []
  | i, b :: rest =>
    (if b then [] else [ParseError.didNotParse (i + 1)]) ++ missingErrors (i + 1) rest

/-- Embeds `parse_calendar`, with the document's selected day cells supplied
as the list of their child-node lists (the `scraper` selection is the external
collaborator): scan every cell, marking coverage, then record one error per
day never covered. -/
def parse_calendar (res : MonthResult) (cells : List (List Node)) :
    Except String MonthResult :=
  match parse_calendar_go res (List.replicate res.days_in_month false) cells with
  | .error e => .error e
  | .ok q => .ok { q.1 with errors := q.1.errors ++ missingErrors 0 q.2 }

/-- The day number a cell would report, read off the cell alone: the trimmed
content of a text first child, when it parses.  `parse_cell` returns exactly
this whenever it returns at all. -/
def cellDay (cell : List Node) : Option Nat :=
  match cell with
  | [] => none
  | .text s :: _ => parseUsize (trim s)
  | _ :: _ => none

/-- How many of the given cells report day `d`. -/
def touches (d : Nat) (cells : List (List Node)) : Nat :=
  cells.countP (fun c => cellDay c == some d)

/-! ### Event hashing (`std::hash::DefaultHasher`, i.e. SipHash-1-3 with zero keys) -/

/-- Truncation to 64 bits. -/
def mask64 (n : Nat) : Nat := n % 2 ^ 64

/-- Wrapping 64-bit addition. -/
def add64 (a b : Nat) : Nat := mask64 (a + b)

/-- Truncated 64-bit xor. -/
def xor64 (a b : Nat) : Nat := mask64 (Nat.xor a b)

/-- Left 64-bit rotation (arguments already truncated). -/
def rotl64 (x r : Nat) : Nat := mask64 (x * 2 ^ r) + x / 2 ^ (64 - r)

/-- The four-word SipHash state. -/
structure SipState where
  v0 : Nat
  v1 : Nat
  v2 : Nat
  v3 : Nat

/-- One SipHash round. -/
def sipRound (s : SipState) : SipState :=
  let v0 := add64 s.v0 s.v1
  let v1 := rotl64 s.v1 13
  let v1 := xor64 v1 v0
  let v0 := rotl64 v0 32
  let v2 := add64 s.v2 s.v3
  let v3 := rotl64 s.v3 16
  let v3 := xor64 v3 v2
  let v0 := add64 v0 v3
  let v3 := rotl64 v3 21
  let v3 := xor64 v3 v0
  let v2 := add64 v2 v1
  let v1 := rotl64 v1 17
  let v1 := xor64 v1 v2
  let v2 := rotl64 v2 32
  { v0 := v0, v1 := v1, v2 := v2, v3 := v3 }

/-- Compress one message word into the state (SipHash-1-3: one round). -/
def sipCompress (s : SipState) (m : Nat) : SipState :=
  let s := { s with v3 := xor64 s.v3 m }
  let s := sipRound s
  { s with v0 := xor64 s.v0 m }

/-- Little-endian value of up to eight bytes. -/
def leWord : List Nat → Nat
  | [] => 0
  | b :: rest => b + 256 * leWord rest

/-- Process all complete eight-byte words of the message. -/
def sipBody (s : SipState) : List Nat → SipState
  | b0 :: b1 :: b2 :: b3 :: b4 :: b5 :: b6 :: b7 :: rest =>
    sipBody (sipCompress s (leWord [b0, b1, b2, b3, b4, b5, b6, b7])) rest
  | _ => s

/-- The trailing bytes (fewer than eight) of the message. -/
def sipTail : List Nat → List Nat
  | _ :: _ :: _ :: _ :: _ :: _ :: _ :: _ :: rest => sipTail rest
  | t => t

/-- SipHash-1-3 of a byte string under keys `k0`, `k1`:
`DefaultHasher::new()` uses `k0 = k1 = 0`, so the digest is a deterministic
pure function of the byte string alone, identical across runs. -/
def sipHash13 (k0 k1 : Nat) (msg : List Nat) : Nat :=
  let s0 : SipState :=
    { v0 := xor64 k0 0x736f6d6570736575
      v1 := xor64 k1 0x646f72616e646f6d
      v2 := xor64 k0 0x6c7967656e657261
      v3 := xor64 k1 0x7465646279746573 }
  let s := sipBody s0 msg
  let b := mask64 (msg.length % 256 * 2 ^ 56 + leWord (sipTail msg))
  let s := sipCompress s b
  let s := { s with v2 := xor64 s.v2 0xff }
  let s := sipRound (sipRound (sipRound s))
  xor64 (xor64 s.v0 s.v1) (xor64 s.v2 s.v3)

/-- The eight little-endian bytes of a 64-bit value, as written by
`Hasher::write_usize` on a little-endian machine. -/
def toLE8 (n : Nat) : List Nat :=
  [n % 256, n / 2 ^ 8 % 256, n / 2 ^ 16 % 256, n / 2 ^ 24 % 256,
   n / 2 ^ 32 % 256, n / 2 ^ 40 % 256, n / 2 ^ 48 % 256, n / 2 ^ 56 % 256]

/-- The UTF-8 bytes of a string. -/
def strBytes (s : String) : List Nat :=
  s.toUTF8.toList.map (fun b => b.toNat)

/-- Bytes written by the derived `Hash` for `Time`: both fields in order. -/
def timeBytes (t : Time) : List Nat :=
  toLE8 t.hours ++ toLE8 t.minutes

/-- Bytes written by the derived `Hash` for `Event`: the variant discriminant
(as a machine word), then every field in declaration order; a `String` field
contributes its UTF-8 bytes followed by the `0xff` terminator byte. -/
def eventBytes : Event → List Nat
  | .Timed d f t s => toLE8 0 ++ toLE8 d ++ timeBytes f ++ timeBytes t ++ strBytes s ++ [0xff]
  | .FullDay d s => toLE8 1 ++ toLE8 d ++ strBytes s ++ [0xff]

/-- The 64-bit identifier `Event::as_ics` computes: hash the event's full
field set with `DefaultHasher` and take `finish()`. -/
def eventHash (e : Event) : Nat :=
  sipHash13 0 0 (eventBytes e)

/-! ### Serialization (`Event::as_ics`, `MonthResult::events_as_ics`) -/

/-- Zero-pad a number to two digits (`{:02}` — wider numbers keep all their
digits). -/
def pad2 (n : Nat) : String :=
  if n < 10 then "0" ++ toString n else toString n

/-- Zero-pad a number to four digits (`{:04}`). -/
def pad4 (n : Nat) : String :=
  if n < 10 then "000" ++ toString n
  else if n < 100 then "00" ++ toString n
  else if n < 1000 then "0" ++ toString n
  else toString n

/-- Embeds `url_for`, with the `REMOTEUSER`/`REMOTEPASS` environment values
supplied as arguments (credential supply is an external collaborator). -/
def url_for (user pass : String) (year month : Nat) : String :=
  "http://" ++ user ++ ":" ++ pass ++
    "@brionac.s17.xrea.com/schedule/homepage/homepage/calendar/" ++
    toString year ++ "/" ++ toString year ++ pad2 month ++ ".html"

/-- A civil date-time (to the minute; the source always serializes zero
seconds). -/
structure DateTime where
  year : Nat
  month : Nat
  day : Nat
  hour : Nat
  minute : Nat
deriving DecidableEq

/-- The previous civil day. -/
def prevDay (y m d : Nat) : Nat × Nat × Nat :=
  if d > 1 then (y, m, d - 1)
  else if m > 1 then (y, m - 1, days_in_month y (m - 1))
  else (y - 1, 12, 31)

/-- Embeds the `chrono_tz::Asia::Tokyo … .with_timezone(&Utc)` conversion:
for every year the program handles (1952 onward) Asia/Tokyo is fixed at
UTC+9 with no daylight saving, so converting to UTC subtracts nine hours,
borrowing from the previous civil day when the hour is below nine. -/
def tokyoToUtc (y m d h mi : Nat) : DateTime :=
  if h ≥ 9 then { year := y, month := m, day := d, hour := h - 9, minute := mi }
  else
    let q := prevDay y m d
    { year := q.1, month := q.2.1, day := q.2.2, hour := h + 15, minute := mi }

/-- chrono's `%Y%m%dT%H%M%SZ` rendering of a UTC instant with zero seconds. -/
def fmtStamp (dt : DateTime) : String :=
  pad4 dt.year ++ pad2 dt.month ++ pad2 dt.day ++ "T" ++
    pad2 dt.hour ++ pad2 dt.minute ++ "00Z"

/-- Validity of a `Timed` event's calendar data, exactly the conditions under
which chrono's `with_ymd_and_hms(...)` (at second 0) succeeds, so that the
`unwrap()` calls in `Event::as_ics` do not panic: a real Gregorian date within
`NaiveDate`'s year range and in-range hours and minutes for both endpoints. -/
def icsValid (year month day : Nat) (f t : Time) : Prop :=
  1 ≤ month ∧ month ≤ 12 ∧ 1 ≤ day ∧ day ≤ days_in_month year month ∧
    f.hours ≤ 23 ∧ f.minutes ≤ 59 ∧ t.hours ≤ 23 ∧ t.minutes ≤ 59 ∧
    year ≤ 262143

instance (year month day : Nat) (f t : Time) :
    Decidable (icsValid year month day f t) := by
  unfold icsValid
  infer_instance

/-- Embeds `Event::as_ics`, with the generation timestamp (`Utc::now()`) and
the credentials read by `url_for` supplied as arguments: one VEVENT record
with UID (the content hash), DTSTAMP, DTSTART, DTEND, SUMMARY and URL lines,
in this fixed order, between BEGIN/END markers.  A `FullDay` event serializes
both endpoints as the same whole-day `VALUE=DATE` date; a `Timed` event
interprets its civil data in the Asia/Tokyo timezone and converts to UTC,
panicking (as the source's `unwrap()` does) on invalid calendar data. -/
def as_ics (e : Event) (year month : Nat) (user pass now : String) :
    Except String String :=
  let hash := eventHash e
  match e with
  | .FullDay day text =>
    let d := "DATE:" ++ pad4 year ++ pad2 month ++ pad2 day
    .ok ("BEGIN:VEVENT\nUID:" ++ toString hash ++ "@shinbukan-ics\nDTSTAMP:" ++
      now ++ "\n" ++ ("DTSTART;VALUE=" ++ d) ++ "\n" ++ ("DTEND;VALUE=" ++ d) ++
      "\nSUMMARY:" ++ text ++ "\nURL:" ++ url_for user pass year month ++
      "\nEND:VEVENT\n")
  | .Timed day f t text =>
    if icsValid year month day f t then
      let fromS := "DTSTART:" ++ fmtStamp (tokyoToUtc year month day f.hours f.minutes)
      let toS := "DTEND:" ++ fmtStamp (tokyoToUtc year month day t.hours t.minutes)
      .ok ("BEGIN:VEVENT\nUID:" ++ toString hash ++ "@shinbukan-ics\nDTSTAMP:" ++
        now ++ "\n" ++ fromS ++ "\n" ++ toS ++
        "\nSUMMARY:" ++ text ++ "\nURL:" ++ url_for user pass year month ++
        "\nEND:VEVENT\n")
    else .error "panic: unwrap on invalid date or time"

/-- Embeds the loop of `MonthResult::events_as_ics` for a given year/month:
concatenate the records of the given events in order. -/
def events_as_ics_go (year month : Nat) (user pass now : String) :
    List Event → Except String String
  | [] => .ok ""
  | e :: rest =>
    match as_ics e year month user pass now with
    | .error err => .error err
    | .ok s =>
      match events_as_ics_go year month user pass now rest with
      | .error err => .error err
      | .ok r => .ok (s ++ r)

/-- Embeds `MonthResult::events_as_ics`: every collected event, serialized in
insertion order. -/
def MonthResult.events_as_ics (res : MonthResult) (user pass now : String) :
    Except String String :=
  events_as_ics_go res.year res.month user pass now res.events

/-! ### Civil-time arithmetic used to state the UTC-conversion property -/

/-- Days in calendar years `0, …, y - 1` (year 0 is a leap year). -/
def daysBeforeYear (y : Nat) : Nat :=
  365 * y + (y + 3) / 4 - (y + 99) / 100 + (y + 399) / 400

/-- Days in months `1, …, m - 1` of year `y`. -/
def daysBeforeMonth (y m : Nat) : Nat :=
  ∑ k ∈ Finset.range (m - 1), days_in_month y (k + 1)

/-- Minutes elapsed since the epoch `0000-01-01T00:00` of a civil date-time:
the linearization in which "convert to UTC" means "subtract nine hours". -/
def totalMinutesDT (dt : DateTime) : Nat :=
  ((daysBeforeYear dt.year + daysBeforeMonth dt.year dt.month + (dt.day - 1)) * 24
    + dt.hour) * 60 + dt.minute

/-- The disambiguation rule as the spec words it (section 4.3): written from
the spec, for comparison with what `MonthResult::event` does to each endpoint. -/
def normTime (t : Time) : Time :=
  if t.hours < 8 then { hours := t.hours + 12, minutes := t.minutes } else t

/-- Field-wise equality of two events: same variant, same day, same label and
— for `Timed` — the same endpoints (the hypothesis of the identifier-stability
claim). -/
def sameFields : Event → Event → Prop
  | .Timed d f t s, .Timed d' f' t' s' => d = d' ∧ f = f' ∧ t = t' ∧ s = s'
  | .FullDay d s, .FullDay d' s' => d = d' ∧ s = s'
  | _, _ => False

/-! ### Helper lemmas about the string primitives -/

theorem digitsValAux_digits {l : List Char} {acc v : Nat}
    (h : digitsValAux acc l = some v) : ∀ c ∈ l, c.isDigit = true := by
  induction l generalizing acc with
  | nil => intro c hc; cases hc
  | cons c rest ih =>
    intro x hx
    rw [digitsValAux] at h
    rw [List.mem_cons] at hx
    by_cases hd : c.isDigit = true
    · rcases hx with rfl | hx
      · exact hd
      · exact ih (by simpa [hd] using h) x hx
    · simp [hd] at h

theorem mem_of_stripPlus {l : List Char} {c : Char} (hc : c ∈ l) :
    c = '+' ∨ c ∈ stripPlus l := by
  rcases l with _ | ⟨c0, rest⟩
  · cases hc
  · rw [List.mem_cons] at hc
    by_cases h0 : c0 = '+'
    · subst h0
      rcases hc with rfl | hc
      · exact .inl rfl
      · exact .inr (by simp [stripPlus, hc])
    · rcases hc with rfl | hc
      · exact .inr (by simp [stripPlus, h0])
      · exact .inr (by simp [stripPlus, h0, hc])

theorem parseUsize_digits {s : String} {v : Nat} (h : parseUsize s = some v) :
    ∀ c ∈ stripPlus s.data, c.isDigit = true := by
  unfold parseUsize at h
  split at h
  · exact absurd h (by simp)
  · rcases hval : digitsValAux 0 (stripPlus s.data) with _ | w
    · rw [hval] at h; exact absurd h (by simp)
    · exact fun c hc => digitsValAux_digits hval c hc

theorem parseUsize_chars {s : String} {v : Nat} (h : parseUsize s = some v) :
    ∀ c ∈ s.data, c = '+' ∨ c.isDigit = true := by
  intro c hc
  rcases mem_of_stripPlus hc with h1 | h1
  · exact .inl h1
  · exact .inr (parseUsize_digits h c h1)

theorem splitOnceAux_none {p : Char → Bool} {l : List Char}
    (h : ∀ c ∈ l, p c = false) : splitOnceAux p l = none := by
  induction l with
  | nil => rfl
  | cons c rest ih =>
    rw [splitOnceAux, h c (by simp), ih (fun x hx => h x (by simp [hx]))]
    rfl

theorem splitOnceAux_append {p : Char → Bool} {a : List Char} {sep : Char}
    {b : List Char} (ha : ∀ c ∈ a, p c = false) (hsep : p sep = true) :
    splitOnceAux p (a ++ sep :: b) = some (a, b) := by
  induction a with
  | nil => simp [splitOnceAux, hsep]
  | cons c rest ih =>
    have hc : p c = false := ha c (by simp)
    have ih' := ih (fun x hx => ha x (by simp [hx]))
    simp [splitOnceAux, hc, ih']

theorem parseUsize_not_colon {s : String} {v : Nat} (h : parseUsize s = some v) :
    ∀ c ∈ s.data, (c == ':') = false := by
  intro c hc
  rcases parseUsize_chars h c hc with h1 | h1
  · subst h1; decide
  · by_cases hcc : c = ':'
    · subst hcc; simp at h1
    · simpa using hcc

theorem parse_time_of_two {s1 s2 : String} {h m : Nat}
    (h1 : parseUsize s1 = some h) (h2 : parseUsize s2 = some m) :
    parse_time (s1 ++ ":" ++ s2) = .ok { hours := h, minutes := m } := by
  have hdata : (s1 ++ ":" ++ s2).data = s1.data ++ ':' :: s2.data := by
    simp [String.data_append]
  have hsplit : splitOnce (fun c => c == ':') (s1 ++ ":" ++ s2) = some (s1, s2) := by
    unfold splitOnce
    rw [hdata, splitOnceAux_append (parseUsize_not_colon h1) (by decide)]
    rcases s1 with ⟨l1⟩
    rcases s2 with ⟨l2⟩
    rfl
  unfold parse_time
  simp only [hsplit, h1, h2]

theorem parse_time_of_one {s : String} {h : Nat} (h1 : parseUsize s = some h) :
    parse_time s = .ok { hours := h, minutes := 0 } := by
  have hsplit : splitOnce (fun c => c == ':') s = none := by
    unfold splitOnce
    rw [splitOnceAux_none (parseUsize_not_colon h1)]
    rfl
  unfold parse_time
  simp only [hsplit, h1]

theorem event_pushes_normalized (res : MonthResult) (day : Nat) (f t : Time)
    (txt : String) :
    res.event day f t txt =
      { res with events := res.events ++ [.Timed day (normTime f) (normTime t) txt] } := by
  rcases f with ⟨fh, fm⟩
  rcases t with ⟨th, tm⟩
  simp only [MonthResult.event, normTime]

theorem Event.append_day (e : Event) (s : String) : (e.append s).day = e.day := by
  cases e <;> rfl

theorem setLastAppended_append : ∀ (es : List Event) (e : Event) (t : String),
    setLastAppended (es ++ [e]) t = some (es ++ [e.append t]) := by
  intro es
  induction es with
  | nil => intro e t; rfl
  | cons a es ih =>
    intro e t
    rcases es with _ | ⟨b, es'⟩
    · rfl
    · simp [setLastAppended, List.append_eq]
      exact ih e t

theorem appendAll_shape : ∀ (ts : List String) (res : MonthResult)
    (es : List Event) (e : Event), res.events = es ++ [e] →
    appendAll res ts = .ok { res with events := es ++ [ts.foldl Event.append e] } := by
  intro ts
  induction ts with
  | nil =>
    intro res es e h
    rw [appendAll]
    simp only [List.foldl_nil]
    rw [← h]
  | cons t ts ih =>
    intro res es e h
    rw [appendAll]
    have h1 : res.append_to_last_event t =
        .ok { res with events := es ++ [e.append t] } := by
      unfold MonthResult.append_to_last_event
      rw [h, setLastAppended_append]
    rw [h1]
    simp only [List.foldl_cons]
    exact ih _ es (e.append t) rfl

/-! ### Claim theorems: the cell interpreter's text and highlight handling -/

/-- Claim C1. The spec requires a declared, recorded error when a red `font`
highlight is visited before any event has been produced; the code instead
calls `self.events.last_mut().unwrap()`, which panics on an empty event list.
Evaluating the embedded interpreter at the failing input — a day cell whose
day marker is immediately followed by a highlight — yields the modelled
panic, with no error recorded and no result produced. -/
theorem c1_highlight_without_event_panics :
    parse_cell (MonthResult.new 2024 1)
        [.text "5", .element "font" [("color", "red")] [.text "note"]] =
      .error "panic: unwrap on None" := by decide

/-- Claim C10. A well-formed day cell whose text node's first space-delimited
word contains `-` or `~` with non-numeric halves makes the interpreter panic
inside time parsing (`parse().unwrap()` on a non-integer), instead of
producing an event or recording a `ParseError`: both the time parser alone on
`"foo"` and the whole cell interpreter on `"foo-bar baz"` panic. -/
theorem c10_nonnumeric_time_panics :
    parse_time "foo" = .error "panic: unwrap on None" ∧
    parse_cell (MonthResult.new 2024 1) [.text "5", .text "foo-bar baz"] =
      .error "panic: unwrap on None" := by decide

/-- Claim C2, counterexample.  The claim says a first child that is a text
node whose trimmed content does not parse as an integer in
`[1, days_in_month]` makes `parse_cell` return `none` silently.  The code
instead panics on `"foo"` (no integer at all), and accepts `"0"` — an integer
outside `[1, 30]` for April 2024 — returning it as a day number rather than
`none`. -/
theorem c2_counterexample :
    parse_cell (MonthResult.new 2024 4) [.text "foo"] = .error "panic: unwrap on None" ∧
    parse_cell (MonthResult.new 2024 4) [.text "0"] = .ok (MonthResult.new 2024 4, some 0) ∧
    days_in_month 2024 4 = 30 ∧ ¬ (1 ≤ 0) := by decide

/-- Claim C2, amended.  A missing first child, or a first child that is not a
text node, makes `parse_cell` return "not a day cell" (`none`) silently, with
the accumulator untouched; a text first child whose trimmed content does not
parse as an unsigned integer makes `parse_cell` panic; and a text first child
parsing as any unsigned integer `v` — with no `[1, days_in_month]` range
check — is accepted as the day number. -/
theorem c2_day_marker_behavior :
    (∀ res : MonthResult, parse_cell res [] = .ok (res, none)) ∧
    (∀ (res : MonthResult) (name : String) (attrs : List (String × String))
        (cs rest : List Node),
      parse_cell res (.element name attrs cs :: rest) = .ok (res, none)) ∧
    (∀ (res : MonthResult) (d : String) (rest : List Node),
      parse_cell res (.other d :: rest) = .ok (res, none)) ∧
    (∀ (res : MonthResult) (s : String) (rest : List Node),
      parseUsize (trim s) = none →
      parse_cell res (.text s :: rest) = .error "panic: unwrap on None") ∧
    (∀ (res : MonthResult) (s : String) (v : Nat),
      parseUsize (trim s) = some v →
      parse_cell res [.text s] = .ok (res, some v)) := by
  refine ⟨fun res => rfl, fun res name attrs cs rest => rfl, fun res d rest => rfl,
    fun res s rest h => ?_, fun res s v h => ?_⟩
  · simp [parse_cell, get_day_number, h]
  · simp [parse_cell, get_day_number, h, scanChildren]

theorem c2_day_marker_behavior_witness :
    parse_cell (MonthResult.new 2024 4) [] = .ok (MonthResult.new 2024 4, none) ∧
    parse_cell (MonthResult.new 2024 4) [.element "br" [] []] =
      .ok (MonthResult.new 2024 4, none) ∧
    parse_cell (MonthResult.new 2024 4) [.other "Comment"] =
      .ok (MonthResult.new 2024 4, none) ∧
    parse_cell (MonthResult.new 2024 4) [.text " ", .text "Lesson"] =
      .error "panic: unwrap on None" ∧
    parse_cell (MonthResult.new 2024 4) [.text "17"] =
      .ok (MonthResult.new 2024 4, some 17) :=
  ⟨c2_day_marker_behavior.1 _,
   c2_day_marker_behavior.2.1 _ _ _ _ _,
   c2_day_marker_behavior.2.2.1 _ _ _,
   c2_day_marker_behavior.2.2.2.1 _ _ _ (by decide),
   c2_day_marker_behavior.2.2.2.2 _ _ _ (by decide)⟩

/-- Claim C3, counterexample.  The claim's example says `"11:30"` yields hour
23; but 11 is not below 8, so neither the parser nor the normalization in
`MonthResult::event` changes it: the stored start hour is 11, not 23. -/
theorem c3_counterexample :
    parse_time "11:30" = .ok { hours := 11, minutes := 30 } ∧
    ((MonthResult.new 2024 1).event 5 { hours := 11, minutes := 30 }
        { hours := 12, minutes := 0 } "Lesson").events =
      [.Timed 5 { hours := 11, minutes := 30 } { hours := 12, minutes := 0 } "Lesson"] ∧
    (11 : Nat) ≠ 23 := by decide

/-- Claim C3, amended.  `parse_time` parses `"H"` and `"H:M"` by parsing each
component as an integer with no range validation, and `MonthResult::event`
adds 12 to an endpoint's hour exactly when it is below 8, independently for
each endpoint (`normTime` transcribes the spec's rule); `"2:00"` yields hour
14 and `"9:00"` yields hour 9, but `"11:30"` yields hour 11 (unchanged,
since 11 ≥ 8), not 23. -/
theorem c3_time_normalization :
    (∀ (res : MonthResult) (day : Nat) (f t : Time) (txt : String),
      res.event day f t txt =
        { res with events := res.events ++ [.Timed day (normTime f) (normTime t) txt] }) ∧
    (∀ (s1 s2 : String) (h m : Nat), parseUsize s1 = some h → parseUsize s2 = some m →
      parse_time (s1 ++ ":" ++ s2) = .ok { hours := h, minutes := m }) ∧
    (∀ (s : String) (h : Nat), parseUsize s = some h →
      parse_time s = .ok { hours := h, minutes := 0 }) ∧
    parse_time "2:00" = .ok { hours := 2, minutes := 0 } ∧
    normTime { hours := 2, minutes := 0 } = { hours := 14, minutes := 0 } ∧
    parse_time "9:00" = .ok { hours := 9, minutes := 0 } ∧
    normTime { hours := 9, minutes := 0 } = { hours := 9, minutes := 0 } ∧
    parse_time "11:30" = .ok { hours := 11, minutes := 30 } ∧
    normTime { hours := 11, minutes := 30 } = { hours := 11, minutes := 30 } :=
  ⟨event_pushes_normalized,
   fun _ _ _ _ h1 h2 => parse_time_of_two h1 h2,
   fun _ _ h1 => parse_time_of_one h1,
   by decide, by decide, by decide, by decide, by decide, by decide⟩

theorem c3_time_normalization_witness :
    (MonthResult.new 2024 1).event 5 { hours := 2, minutes := 0 }
        { hours := 3, minutes := 0 } "Lesson" =
      { year := 2024, month := 1,
        events := [.Timed 5 (normTime { hours := 2, minutes := 0 })
          (normTime { hours := 3, minutes := 0 }) "Lesson"], errors := [] } ∧
    parse_time ("2" ++ ":" ++ "00") = .ok { hours := 2, minutes := 0 } ∧
    parse_time "9" = .ok { hours := 9, minutes := 0 } :=
  ⟨c3_time_normalization.1 _ _ _ _ _,
   c3_time_normalization.2.1 "2" "00" 2 0 (by decide) (by decide),
   c3_time_normalization.2.2.1 "9" 9 (by decide)⟩

/-- Claim C5, counterexample.  The claim says every trimmed text whose first
space-delimited word splits on `-` or `~` produces a `Timed` event; on
`"foo~bar baz"` the code instead panics inside time parsing, producing no
event at all. -/
theorem c5_counterexample :
    parse_cell (MonthResult.new 2024 1) [.text "5", .text "foo~bar baz"] =
      .error "panic: unwrap on None" := by decide

/-- Claim C8, counterexample.  The claim says the "last produced event"
pointer is scoped to the current cell and invalid across cell boundaries; in
the code it is `events.last_mut()` on the whole month accumulator, so a
highlight in a cell with no event yet appends to the previous cell's last
event: here cell "2"'s highlight rewrites the label of the day-1 event
produced by a sibling cell. -/
theorem c8_counterexample :
    parse_cell { year := 2024, month := 1, events := [.FullDay 1 "Lesson"], errors := [] }
        [.text "2", .element "font" [("color", "red")] [.text "note"]] =
      .ok ({ year := 2024, month := 1,
             events := [.FullDay 1 "Lesson note"], errors := [] }, some 2) := by decide

/-- Claim C5, amended.  For every non-empty trimmed text node visited after
the day marker: with no space in the text, a `FullDay` event labelled with
the full text is produced; with a space, splitting at the first space into
head/rest, a head that does not split on `-` or `~` produces a `FullDay`
event labelled with the full original text, and a head that splits into two
halves that both parse as times (`"H"` or `"H:M"`) produces a `Timed` event
with the two normalized endpoints and label rest.  (When a half does not
parse as a time the interpreter panics instead of producing a `Timed`
event — the proviso the counterexample forces.) -/
theorem c5_text_classification :
    (∀ (res : MonthResult) (day : Nat) (s : String) (rest : List Node),
      trim s ≠ "" →
      scanChildren day res (.text s :: rest) =
        match classifyText res day (trim s) with
        | .error e => .error e
        | .ok r => scanChildren day r rest) ∧
    (∀ (res : MonthResult) (day : Nat) (s : String),
      (∀ c ∈ s.data, (c == ' ') = false) →
      classifyText res day s = .ok (res.full_day_event day s)) ∧
    (∀ (res : MonthResult) (day : Nat) (s head rest2 : String),
      splitOnce (fun c => c == ' ') s = some (head, rest2) →
      splitOnce (fun c => c == '-' || c == '~') head = none →
      classifyText res day s = .ok (res.full_day_event day s)) ∧
    (∀ (res : MonthResult) (day : Nat) (s head rest2 f1 t1 : String) (tf tt : Time),
      splitOnce (fun c => c == ' ') s = some (head, rest2) →
      splitOnce (fun c => c == '-' || c == '~') head = some (f1, t1) →
      parse_time f1 = .ok tf → parse_time t1 = .ok tt →
      classifyText res day s = .ok (res.event day tf tt rest2)) := by
  refine ⟨fun res day s rest hs => ?_, fun res day s hs => ?_,
    fun res day s head rest2 h1 h2 => ?_,
    fun res day s head rest2 f1 t1 tf tt h1 h2 h3 h4 => ?_⟩
  · simp only [scanChildren, if_neg hs]
  · have hsplit : splitOnce (fun c => c == ' ') s = none := by
      unfold splitOnce
      rw [splitOnceAux_none hs]
      rfl
    unfold classifyText
    simp only [hsplit]
  · unfold classifyText
    simp only [h1, h2]
  · unfold classifyText
    simp only [h1, h2, h3, h4]

theorem c5_text_classification_witness :
    scanChildren 5 (MonthResult.new 2024 1) [.text " AllDayLabel "] =
      .ok ((MonthResult.new 2024 1).full_day_event 5 "AllDayLabel") ∧
    classifyText (MonthResult.new 2024 1) 5 "AllDayLabel" =
      .ok ((MonthResult.new 2024 1).full_day_event 5 "AllDayLabel") ∧
    classifyText (MonthResult.new 2024 1) 5 "foo bar" =
      .ok ((MonthResult.new 2024 1).full_day_event 5 "foo bar") ∧
    classifyText (MonthResult.new 2024 1) 5 "9:00-10:30 Lesson" =
      .ok ((MonthResult.new 2024 1).event 5 { hours := 9, minutes := 0 }
        { hours := 10, minutes := 30 } "Lesson") :=
  ⟨by rw [c5_text_classification.1 _ 5 _ [] (by decide)]; decide,
   c5_text_classification.2.1 _ 5 _ (by decide),
   c5_text_classification.2.2.1 _ 5 "foo bar" "foo" "bar" (by decide) (by decide),
   c5_text_classification.2.2.2 _ 5 "9:00-10:30 Lesson" "9:00-10:30" "Lesson"
     "9:00" "10:30" { hours := 9, minutes := 0 } { hours := 10, minutes := 30 }
     (by decide) (by decide) (by decide) (by decide)⟩

theorem scan_fontRed (day : Nat) (res : MonthResult) (cs rest : List Node)
    (es : List Event) (e : Event) (h : res.events = es ++ [e]) :
    scanChildren day res (.element "font" [("color", "red")] cs :: rest) =
      scanChildren day
        { res with events := es ++ [(descTextsL cs).foldl Event.append e] } rest := by
  have ha := appendAll_shape (descTextsL cs) res es e h
  simp [scanChildren, attr, ha]

/-- Claim C8, amended.  A red `font` highlight appends its descendant text
(space-joined, in document order) to the label of the month accumulator's
globally last collected event — not a pointer scoped to the current cell:
when the event list is `es ++ [e]`, only `e` is rewritten and every event in
`es` (including all events of sibling cells) is unchanged.  In particular a
highlight that follows an event-producing text node in the same cell appends
only to that just-produced event; but with no prior event in the cell the
target is the previous cell's last event (and with no event at all the code
panics), so the pointer is *not* invalidated at cell boundaries. -/
theorem c8_highlight_append_target :
    (∀ (day : Nat) (res : MonthResult) (cs rest : List Node)
        (es : List Event) (e : Event),
      res.events = es ++ [e] →
      scanChildren day res (.element "font" [("color", "red")] cs :: rest) =
        scanChildren day
          { res with events := es ++ [(descTextsL cs).foldl Event.append e] } rest) ∧
    (∀ (day : Nat) (res res1 : MonthResult) (s : String) (cs rest : List Node)
        (ev : Event),
      trim s ≠ "" →
      classifyText res day (trim s) = .ok res1 →
      res1.events = res.events ++ [ev] →
      scanChildren day res (.text s :: .element "font" [("color", "red")] cs :: rest) =
        scanChildren day
          { res1 with events := res.events ++ [(descTextsL cs).foldl Event.append ev] }
          rest) := by
  refine ⟨scan_fontRed, fun day res res1 s cs rest ev hs hc hev => ?_⟩
  simp only [scanChildren, if_neg hs, hc]
  exact scan_fontRed day res1 cs rest res.events ev hev

theorem c8_highlight_append_target_witness :
    scanChildren 2
        { year := 2024, month := 1, events := [.FullDay 1 "A", .FullDay 1 "B"],
          errors := [] }
        [.element "font" [("color", "red")] [.text "x"]] =
      scanChildren 2
        { year := 2024, month := 1,
          events := [.FullDay 1 "A"] ++
            [(descTextsL [.text "x"]).foldl Event.append (.FullDay 1 "B")],
          errors := [] } [] ∧
    scanChildren 5
        { year := 2024, month := 1, events := [.FullDay 4 "Prev"], errors := [] }
        [.text "Lesson", .element "font" [("color", "red")] [.text "x"]] =
      scanChildren 5
        { year := 2024, month := 1,
          events := [.FullDay 4 "Prev"] ++
            [(descTextsL [.text "x"]).foldl Event.append (.FullDay 5 "Lesson")],
          errors := [] } [] :=
  ⟨c8_highlight_append_target.1 2 _ [.text "x"] [] [.FullDay 1 "A"] (.FullDay 1 "B") rfl,
   c8_highlight_append_target.2 5 _
     { year := 2024, month := 1, events := [.FullDay 4 "Prev", .FullDay 5 "Lesson"],
       errors := [] }
     "Lesson" [.text "x"] [] (.FullDay 5 "Lesson") (by decide) (by decide) rfl⟩

/-! ### Claim theorems: identifier stability -/

theorem xor64_lt (a b : Nat) : xor64 a b < 2 ^ 64 :=
  Nat.mod_lt _ (by norm_num)

theorem sipHash13_lt (k0 k1 : Nat) (msg : List Nat) : sipHash13 k0 k1 msg < 2 ^ 64 := by
  unfold sipHash13
  exact xor64_lt _ _

theorem sameFields_eq {e1 e2 : Event} (h : sameFields e1 e2) : e1 = e2 := by
  cases e1 <;> cases e2
  · obtain ⟨rfl, rfl, rfl, rfl⟩ := h; rfl
  · exact h.elim
  · exact h.elim
  · obtain ⟨rfl, rfl⟩ := h; rfl

/-- Claim C6.  The identifier `Event::as_ics` serializes is `DefaultHasher`
(SipHash-1-3 with the fixed zero keys) applied to the event's full field set:
a pure function of the fields, so two events with identical fields (same
variant, day, label, and for `Timed` the same endpoints) get the same 64-bit
identifier, deterministically — there is no per-run seed anywhere in
`eventHash`. -/
theorem c6_identifier_deterministic : ∀ e1 e2 : Event, sameFields e1 e2 →
    eventHash e1 = eventHash e2 ∧ eventHash e1 < 2 ^ 64 :=
  fun _ _ h => ⟨by rw [sameFields_eq h], sipHash13_lt 0 0 _⟩

theorem c6_identifier_deterministic_witness :
    sameFields
      (.Timed 10 { hours := 14, minutes := 0 } { hours := 16, minutes := 30 } "Practice")
      (.Timed 10 { hours := 14, minutes := 0 } { hours := 16, minutes := 30 } "Practice") ∧
    (eventHash (.Timed 10 { hours := 14, minutes := 0 } { hours := 16, minutes := 30 } "Practice") =
      eventHash (.Timed 10 { hours := 14, minutes := 0 } { hours := 16, minutes := 30 } "Practice") ∧
     eventHash (.Timed 10 { hours := 14, minutes := 0 } { hours := 16, minutes := 30 } "Practice") < 2 ^ 64) :=
  ⟨⟨rfl, rfl, rfl, rfl⟩, c6_identifier_deterministic _ _ ⟨rfl, rfl, rfl, rfl⟩⟩

/-- Claim C9, counterexample.  The claim says every event stored in the
accumulator has `day ∈ [1, days_in_month]` and that every inserting
operation preserves this; but `parse_cell` performs no range check: for
April 2024 (30 days) a cell whose marker reads "40" stores a `FullDay`
event with day 40 in the accumulator. -/
theorem c9_counterexample :
    parse_cell (MonthResult.new 2024 4) [.text "40", .text "Lesson"] =
      .ok ({ year := 2024, month := 4,
             events := [.FullDay 40 "Lesson"], errors := [] }, some 40) ∧
    days_in_month 2024 4 = 30 ∧
    Event.day (.FullDay 40 "Lesson") = 40 ∧ ¬ (40 ≤ 30) := by decide

/-! ### Structural facts about one cell's interpretation -/

theorem setLastAppended_days : ∀ {evs : List Event} {t : String} {evs' : List Event},
    setLastAppended evs t = some evs' → ∀ e ∈ evs', ∃ e0 ∈ evs, e0.day = e.day := by
  intro evs
  induction evs with
  | nil => intro t evs' h; cases h
  | cons a evs ih =>
    intro t evs' h
    rcases evs with _ | ⟨b, es'⟩
    · rw [setLastAppended] at h
      injection h with h
      subst h
      intro e he
      rw [List.mem_singleton] at he
      subst he
      exact ⟨a, by simp, (Event.append_day a t).symm⟩
    · rw [setLastAppended] at h
      rcases hm : setLastAppended (b :: es') t with _ | l'
      · rw [hm] at h; cases h
      · rw [hm] at h
        injection h with h
        subst h
        intro e he
        rw [List.mem_cons] at he
        rcases he with rfl | he
        · exact ⟨e, by simp, rfl⟩
        · obtain ⟨e0, he0, hd⟩ := ih hm e he
          exact ⟨e0, by simp [he0], hd⟩

theorem appendAll_facts : ∀ (ts : List String) (res res' : MonthResult),
    appendAll res ts = .ok res' →
    res'.year = res.year ∧ res'.month = res.month ∧ res'.errors = res.errors ∧
    ∀ e ∈ res'.events, ∃ e0 ∈ res.events, e0.day = e.day := by
  intro ts
  induction ts with
  | nil =>
    intro res res' h
    rw [appendAll] at h
    injection h with h
    subst h
    exact ⟨rfl, rfl, rfl, fun e he => ⟨e, he, rfl⟩⟩
  | cons t ts ih =>
    intro res res' h
    rw [appendAll] at h
    rcases ha : res.append_to_last_event t with e1 | res1
    · rw [ha] at h; injection h
    · rw [ha] at h
      obtain ⟨hy, hm, he, hev⟩ := ih res1 res' h
      unfold MonthResult.append_to_last_event at ha
      rcases hs : setLastAppended res.events t with _ | evs
      · rw [hs] at ha; cases ha
      · rw [hs] at ha
        injection ha with ha
        subst ha
        refine ⟨hy, hm, he, fun e hee => ?_⟩
        obtain ⟨e1, he1, hd1⟩ := hev e hee
        obtain ⟨e0, he0, hd0⟩ := setLastAppended_days hs e1 he1
        exact ⟨e0, he0, hd0.trans hd1⟩

theorem classifyText_facts {res : MonthResult} {day : Nat} {txt : String}
    {res' : MonthResult} (h : classifyText res day txt = .ok res') :
    res'.year = res.year ∧ res'.month = res.month ∧ res'.errors = res.errors ∧
    ∃ ev, res'.events = res.events ++ [ev] ∧ ev.day = day := by
  unfold classifyText at h
  split at h
  · injection h with h
    subst h
    exact ⟨rfl, rfl, rfl, .FullDay day txt, rfl, rfl⟩
  · split at h
    · injection h with h
      subst h
      exact ⟨rfl, rfl, rfl, .FullDay day txt, rfl, rfl⟩
    · split at h
      · injection h
      · split at h
        · injection h
        · injection h with h
          subst h
          exact ⟨rfl, rfl, rfl, _, rfl, rfl⟩

theorem cov_not_tagged {l : List ParseError} {day : Nat}
    (hlp : ∀ p ∈ l, (∃ s, p = .unexpectedElement day s) ∨ (∃ s, p = .unexpectedNode day s)) :
    ∀ d, ParseError.parsedTwice d ∉ l ∧ ParseError.didNotParse d ∉ l := by
  intro d
  constructor <;> intro hp <;> rcases hlp _ hp with ⟨s, hs⟩ | ⟨s, hs⟩ <;> simp at hs

theorem scanChildren_facts : ∀ (nodes : List Node) (day : Nat) (res res' : MonthResult),
    scanChildren day res nodes = .ok res' →
    res'.year = res.year ∧ res'.month = res.month ∧
    (∃ l, res'.errors = res.errors ++ l ∧
      ∀ p ∈ l, (∃ s, p = .unexpectedElement day s) ∨ (∃ s, p = .unexpectedNode day s)) ∧
    (∀ e ∈ res'.events, (∃ e0 ∈ res.events, e0.day = e.day) ∨ e.day = day) := by
  intro nodes
  induction nodes with
  | nil =>
    intro day res res' h
    rw [scanChildren] at h
    injection h with h
    subst h
    exact ⟨rfl, rfl, ⟨[], by simp, by simp⟩, fun e he => .inl ⟨e, he, rfl⟩⟩
  | cons c rest ih =>
    intro day res res' h
    cases c with
    | element name attrs children =>
      simp only [scanChildren] at h
      by_cases h1 : name = "br"
      · rw [if_pos h1] at h
        exact ih day res res' h
      · rw [if_neg h1] at h
        by_cases h2 : name = "font" ∧ attr attrs "size" = some "-1"
        · rw [if_pos h2] at h
          exact ih day res res' h
        · rw [if_neg h2] at h
          by_cases h3 : name = "font" ∧ attr attrs "color" = some "red"
          · rw [if_pos h3] at h
            rcases ha : appendAll res (descTextsL children) with e1 | res1
            · rw [ha] at h; injection h
            · rw [ha] at h
              obtain ⟨hy1, hm1, her1, hev1⟩ := appendAll_facts _ _ _ ha
              obtain ⟨hy2, hm2, ⟨l, hl, hlp⟩, hev2⟩ := ih day res1 res' h
              refine ⟨hy2.trans hy1, hm2.trans hm1, ⟨l, by rw [hl, her1], hlp⟩,
                fun e he => ?_⟩
              rcases hev2 e he with ⟨e1, he1, hd1⟩ | hd
              · obtain ⟨e0, he0, hd0⟩ := hev1 e1 he1
                exact .inl ⟨e0, he0, hd0.trans hd1⟩
              · exact .inr hd
          · rw [if_neg h3] at h
            obtain ⟨hy2, hm2, ⟨l, hl, hlp⟩, hev2⟩ := ih day _ res' h
            refine ⟨hy2, hm2, ⟨.unexpectedElement day name :: l, ?_, ?_⟩,
              fun e he => ?_⟩
            · rw [hl]
              simp [MonthResult.error]
            · intro p hp
              rw [List.mem_cons] at hp
              rcases hp with rfl | hp
              · exact .inl ⟨name, rfl⟩
              · exact hlp p hp
            · rcases hev2 e he with ⟨e0, he0, hd0⟩ | hd
              · exact .inl ⟨e0, he0, hd0⟩
              · exact .inr hd
    | text s =>
      simp only [scanChildren] at h
      by_cases ht : trim s = ""
      · rw [if_pos ht] at h
        exact ih day res res' h
      · rw [if_neg ht] at h
        rcases hc : classifyText res day (trim s) with e1 | res1
        · rw [hc] at h; injection h
        · rw [hc] at h
          obtain ⟨hy1, hm1, her1, ev, hev, hevd⟩ := classifyText_facts hc
          obtain ⟨hy2, hm2, ⟨l, hl, hlp⟩, hev2⟩ := ih day res1 res' h
          refine ⟨hy2.trans hy1, hm2.trans hm1, ⟨l, by rw [hl, her1], hlp⟩,
            fun e he => ?_⟩
          rcases hev2 e he with ⟨e1, he1, hd1⟩ | hd
          · rw [hev, List.mem_append] at he1
            rcases he1 with he1 | he1
            · exact .inl ⟨e1, he1, hd1⟩
            · rw [List.mem_singleton] at he1
              subst he1
              exact .inr (by rw [← hd1, hevd])
          · exact .inr hd
    | other d =>
      simp only [scanChildren] at h
      obtain ⟨hy2, hm2, ⟨l, hl, hlp⟩, hev2⟩ := ih day _ res' h
      refine ⟨hy2, hm2, ⟨.unexpectedNode day d :: l, ?_, ?_⟩, fun e he => ?_⟩
      · rw [hl]
        simp [MonthResult.error]
      · intro p hp
        rw [List.mem_cons] at hp
        rcases hp with rfl | hp
        · exact .inr ⟨d, rfl⟩
        · exact hlp p hp
      · rcases hev2 e he with ⟨e0, he0, hd0⟩ | hd
        · exact .inl ⟨e0, he0, hd0⟩
        · exact .inr hd

theorem parse_cell_facts {res : MonthResult} {cell : List Node}
    {res' : MonthResult} {oday : Option Nat}
    (h : parse_cell res cell = .ok (res', oday)) :
    oday = cellDay cell ∧
    res'.year = res.year ∧ res'.month = res.month ∧
    (∀ d, ((ParseError.parsedTwice d ∈ res'.errors) ↔ (ParseError.parsedTwice d ∈ res.errors)) ∧
      ((ParseError.didNotParse d ∈ res'.errors) ↔ (ParseError.didNotParse d ∈ res.errors))) ∧
    (∀ e ∈ res'.events, (∃ e0 ∈ res.events, e0.day = e.day) ∨ oday = some e.day) := by
  rcases cell with _ | ⟨first, rest⟩
  · rw [parse_cell] at h
    injection h with h
    injection h with h1 h2
    subst h1
    subst h2
    exact ⟨rfl, rfl, rfl, fun d => ⟨Iff.rfl, Iff.rfl⟩, fun e he => .inl ⟨e, he, rfl⟩⟩
  · cases first with
    | text s =>
      simp only [parse_cell, get_day_number] at h
      rcases hp : parseUsize (trim s) with _ | v
      · rw [hp] at h; injection h
      · rw [hp] at h
        dsimp only at h
        rcases hs : scanChildren v res rest with e1 | res1
        · rw [hs] at h; injection h
        · rw [hs] at h
          injection h with h
          injection h with h1 h2
          subst h1
          subst h2
          obtain ⟨hy, hm, ⟨l, hl, hlp⟩, hev⟩ := scanChildren_facts rest v res res1 hs
          refine ⟨by simp [cellDay, hp], hy, hm, fun d => ?_, fun e he => ?_⟩
          · have hnt := cov_not_tagged hlp d
            rw [hl]
            constructor <;> constructor <;> intro hx
            · rw [List.mem_append] at hx
              rcases hx with hx | hx
              · exact hx
              · exact absurd hx hnt.1
            · rw [List.mem_append]; exact .inl hx
            · rw [List.mem_append] at hx
              rcases hx with hx | hx
              · exact hx
              · exact absurd hx hnt.2
            · rw [List.mem_append]; exact .inl hx
          · rcases hev e he with ⟨e0, he0, hd0⟩ | hd
            · exact .inl ⟨e0, he0, hd0⟩
            · exact .inr (by rw [hd])
    | element name attrs children =>
      rw [parse_cell] at h
      injection h with h
      injection h with h1 h2
      subst h1
      subst h2
      exact ⟨rfl, rfl, rfl, fun d => ⟨Iff.rfl, Iff.rfl⟩, fun e he => .inl ⟨e, he, rfl⟩⟩
    | other d =>
      rw [parse_cell] at h
      injection h with h
      injection h with h1 h2
      subst h1
      subst h2
      exact ⟨rfl, rfl, rfl, fun d => ⟨Iff.rfl, Iff.rfl⟩, fun e he => .inl ⟨e, he, rfl⟩⟩

/-! ### Coverage bookkeeping facts -/

theorem updateDay_facts {res : MonthResult} {parsed : List Bool} {day : Nat}
    {res2 : MonthResult} {parsed2 : List Bool}
    (h : updateDay res parsed day = .ok (res2, parsed2)) :
    1 ≤ day ∧ day - 1 < parsed.length ∧
    ((parsed.getD (day - 1) false = true ∧
        res2 = res.error (.parsedTwice day) ∧ parsed2 = parsed) ∨
     (parsed.getD (day - 1) false = false ∧
        res2 = res ∧ parsed2 = parsed.set (day - 1) true)) := by
  unfold updateDay at h
  split at h
  · injection h
  · split at h
    · split at h
      · injection h with h
        injection h with h1 h2
        refine ⟨by omega, by assumption, .inl ⟨by assumption, h1.symm, h2.symm⟩⟩
      · injection h with h
        injection h with h1 h2
        rename_i hgd
        rw [Bool.not_eq_true] at hgd
        refine ⟨by omega, by assumption, .inr ⟨hgd, h1.symm, h2.symm⟩⟩
    · injection h

theorem getD_set_self : ∀ (l : List Bool) (i : Nat) (b : Bool), i < l.length →
    (l.set i b).getD i false = b := by
  intro l
  induction l with
  | nil => intro i b h; simp at h
  | cons a l ih =>
    intro i b h
    cases i with
    | zero => rfl
    | succ j =>
      simp only [List.set_cons_succ, List.getD_cons_succ]
      exact ih j b (by simpa using h)

theorem getD_set_ne : ∀ (l : List Bool) (i j : Nat) (b : Bool), i ≠ j →
    (l.set j b).getD i false = l.getD i false := by
  intro l
  induction l with
  | nil => intro i j b h; rfl
  | cons a l ih =>
    intro i j b h
    cases j with
    | zero =>
      cases i with
      | zero => exact absurd rfl h
      | succ i' => simp [List.getD_cons_succ]
    | succ j' =>
      cases i with
      | zero => simp [List.getD_cons_zero]
      | succ i' =>
        simp only [List.set_cons_succ, List.getD_cons_succ]
        exact ih i' j' b (by omega)

theorem mem_missingErrors : ∀ (parsed : List Bool) (i d : Nat),
    (ParseError.didNotParse d ∈ missingErrors i parsed) ↔
      ∃ j, j < parsed.length ∧ parsed.getD j false = false ∧ d = i + j + 1 := by
  intro parsed
  induction parsed with
  | nil => intro i d; simp [missingErrors]
  | cons b rest ih =>
    intro i d
    rw [missingErrors, List.mem_append]
    constructor
    · intro h
      rcases h with h | h
      · cases b with
        | true => simp at h
        | false =>
          simp at h
          exact ⟨0, by simp, by simp, by omega⟩
      · obtain ⟨j, hj, hg, hd⟩ := (ih (i + 1) d).mp h
        exact ⟨j + 1, by simpa using hj, by simpa using hg, by omega⟩
    · rintro ⟨j, hj, hg, rfl⟩
      cases j with
      | zero =>
        left
        have hb : b = false := by simpa using hg
        subst hb
        simp
      | succ j' =>
        right
        refine (ih (i + 1) _).mpr ⟨j', by simpa using hj, by simpa using hg, by omega⟩

theorem missingErrors_shape : ∀ (parsed : List Bool) (i : Nat) (p : ParseError),
    p ∈ missingErrors i parsed → ∃ d, p = .didNotParse d := by
  intro parsed
  induction parsed with
  | nil => intro i p h; simp [missingErrors] at h
  | cons b rest ih =>
    intro i p h
    rw [missingErrors, List.mem_append] at h
    rcases h with h | h
    · cases b with
      | true => simp at h
      | false =>
        simp at h
        exact ⟨i + 1, by rw [h]⟩
    · exact ih _ _ h

theorem mem_error_iff (res : MonthResult) (q p : ParseError) :
    p ∈ (res.error q).errors ↔ p ∈ res.errors ∨ p = q := by
  simp [MonthResult.error]

theorem touches_cons (d : Nat) (cell : List Node) (rest : List (List Node)) :
    touches d (cell :: rest) =
      touches d rest + (if cellDay cell = some d then 1 else 0) := by
  simp [touches, List.countP_cons]

theorem go_cov : ∀ (cells : List (List Node)) (res : MonthResult)
    (parsed : List Bool) (res' : MonthResult) (parsed' : List Bool),
    parse_calendar_go res parsed cells = .ok (res', parsed') →
    parsed'.length = parsed.length ∧
    ∀ i, i < parsed.length →
      (parsed'.getD i false =
        (parsed.getD i false || decide (1 ≤ touches (i + 1) cells))) ∧
      ((ParseError.parsedTwice (i + 1) ∈ res'.errors) ↔
        ((ParseError.parsedTwice (i + 1) ∈ res.errors) ∨
         (parsed.getD i false = true ∧ 1 ≤ touches (i + 1) cells) ∨
         2 ≤ touches (i + 1) cells)) ∧
      ((ParseError.didNotParse (i + 1) ∈ res'.errors) ↔
        (ParseError.didNotParse (i + 1) ∈ res.errors)) := by
  intro cells
  induction cells with
  | nil =>
    intro res parsed res' parsed' h
    rw [parse_calendar_go] at h
    injection h with h
    injection h with h1 h2
    subst h1
    subst h2
    refine ⟨rfl, fun i hi => ⟨by simp [touches], by simp [touches], Iff.rfl⟩⟩
  | cons cell rest ih =>
    intro res parsed res' parsed' h
    rw [parse_calendar_go] at h
    rcases hp : parse_cell res cell with e1 | ⟨res0, oday⟩
    · rw [hp] at h; injection h
    · rw [hp] at h
      dsimp only at h
      obtain ⟨hoday, _hy, _hm, hcov, _hev⟩ := parse_cell_facts hp
      cases oday with
      | none =>
        obtain ⟨hlen, hstat⟩ := ih res0 parsed res' parsed' h
        have htc : ∀ i : Nat, touches (i + 1) (cell :: rest) = touches (i + 1) rest := by
          intro i
          rw [touches_cons, ← hoday]
          simp
        refine ⟨hlen, fun i hi => ?_⟩
        obtain ⟨h1, h2, h3⟩ := hstat i hi
        exact ⟨by rw [htc]; exact h1,
          by rw [htc, h2, (hcov (i + 1)).1],
          by rw [h3, (hcov (i + 1)).2]⟩
      | some day =>
        dsimp only at h
        rcases hu : updateDay res0 parsed day with e1 | ⟨res1, parsed1⟩
        · rw [hu] at h; injection h
        · rw [hu] at h
          obtain ⟨hday1, hdaylt, hbr⟩ := updateDay_facts hu
          have hcd : cellDay cell = some day := hoday.symm
          have htc : ∀ i : Nat, touches (i + 1) (cell :: rest) =
              touches (i + 1) rest + (if day = i + 1 then 1 else 0) := by
            intro i
            rw [touches_cons, hcd]
            by_cases hdi : day = i + 1 <;> simp [hdi]
          rcases hbr with ⟨hgd, hres1, hparsed1⟩ | ⟨hgd, hres1, hparsed1⟩
          · -- day already covered: a parsedTwice error was recorded
            rw [hres1, hparsed1] at h
            dsimp only at h
            obtain ⟨hlen, hstat⟩ :=
              ih (res0.error (.parsedTwice day)) parsed res' parsed' h
            refine ⟨hlen, fun i hi => ?_⟩
            obtain ⟨h1, h2, h3⟩ := hstat i hi
            by_cases hdi : day = i + 1
            · have hgi : parsed.getD i false = true := by
                rw [← hgd]
                congr 1
                omega
              refine ⟨?_, ?_, ?_⟩
              · rw [h1, hgi]
                simp
              · have hT : 1 ≤ touches (i + 1) (cell :: rest) := by
                  rw [htc i, if_pos hdi]
                  omega
                constructor
                · intro _
                  exact .inr (.inl ⟨hgi, hT⟩)
                · intro _
                  rw [h2]
                  left
                  rw [mem_error_iff]
                  right
                  rw [hdi]
              · rw [h3, mem_error_iff, (hcov (i + 1)).2]
                simp
            · have hne : ¬ ((i : Nat) + 1 = day) := by omega
              refine ⟨?_, ?_, ?_⟩
              · rw [h1, htc i, if_neg hdi]
                simp
              · rw [h2, mem_error_iff, (hcov (i + 1)).1, htc i, if_neg hdi]
                simp [ParseError.parsedTwice.injEq, hne]
              · rw [h3, mem_error_iff, (hcov (i + 1)).2]
                simp
          · -- first touch: coverage flag set
            rw [hres1, hparsed1] at h
            dsimp only at h
            obtain ⟨hlen, hstat⟩ :=
              ih res0 (parsed.set (day - 1) true) res' parsed' h
            rw [List.length_set] at hlen
            refine ⟨hlen, fun i hi => ?_⟩
            obtain ⟨h1, h2, h3⟩ := hstat i (by rw [List.length_set]; exact hi)
            by_cases hdi : day = i + 1
            · have hieq : day - 1 = i := by omega
              have hset : (parsed.set (day - 1) true).getD i false = true := by
                rw [hieq]
                exact getD_set_self parsed i true hi
              have hgi : parsed.getD i false = false := by
                rw [← hieq]
                exact hgd
              refine ⟨?_, ?_, ?_⟩
              · have hT1 : (1 : Nat) ≤ touches (i + 1) rest + 1 := by omega
                rw [h1, hset, htc i, if_pos hdi]
                simp [hgi, hT1]
              · rw [h2, hset, (hcov (i + 1)).1, htc i, if_pos hdi, hgi]
                constructor
                · rintro (hx | ⟨_, hx⟩ | hx)
                  · exact .inl hx
                  · exact .inr (.inr (by omega))
                  · exact .inr (.inr (by omega))
                · rintro (hx | ⟨hfalse, _⟩ | hx)
                  · exact .inl hx
                  · exact absurd hfalse (by simp)
                  · exact .inr (.inl ⟨rfl, by omega⟩)
              · rw [h3, (hcov (i + 1)).2]
            · have hine : i ≠ day - 1 := by omega
              have hset : (parsed.set (day - 1) true).getD i false =
                  parsed.getD i false := getD_set_ne parsed i (day - 1) true hine
              refine ⟨?_, ?_, ?_⟩
              · rw [h1, hset, htc i, if_neg hdi]
                simp
              · rw [h2, hset, (hcov (i + 1)).1, htc i, if_neg hdi]
                simp
              · rw [h3, (hcov (i + 1)).2]

theorem getD_replicate (n i : Nat) : (List.replicate n false).getD i false = false := by
  induction n generalizing i with
  | zero => rfl
  | succ k ih =>
    cases i with
    | zero => rfl
    | succ j =>
      simp only [List.replicate_succ, List.getD_cons_succ]
      exact ih j

theorem go_days : ∀ (cells : List (List Node)) (res : MonthResult)
    (parsed : List Bool) (res' : MonthResult) (parsed' : List Bool),
    parse_calendar_go res parsed cells = .ok (res', parsed') →
    (∀ e ∈ res.events, 1 ≤ e.day ∧ e.day ≤ parsed.length) →
    ∀ e ∈ res'.events, 1 ≤ e.day ∧ e.day ≤ parsed.length := by
  intro cells
  induction cells with
  | nil =>
    intro res parsed res' parsed' h hinv
    rw [parse_calendar_go] at h
    injection h with h
    injection h with h1 h2
    subst h1
    exact hinv
  | cons cell rest ih =>
    intro res parsed res' parsed' h hinv
    rw [parse_calendar_go] at h
    rcases hp : parse_cell res cell with e1 | ⟨res0, oday⟩
    · rw [hp] at h; injection h
    · rw [hp] at h
      dsimp only at h
      obtain ⟨_hoday, _hy, _hm, _hcov, hev⟩ := parse_cell_facts hp
      cases oday with
      | none =>
        refine ih res0 parsed res' parsed' h (fun e he => ?_)
        rcases hev e he with ⟨e0, he0, hd0⟩ | hd
        · rw [← hd0]; exact hinv e0 he0
        · exact Option.noConfusion hd
      | some day =>
        dsimp only at h
        rcases hu : updateDay res0 parsed day with e1 | ⟨res1, parsed1⟩
        · rw [hu] at h; injection h
        · rw [hu] at h
          dsimp only at h
          obtain ⟨hday1, hdaylt, hbr⟩ := updateDay_facts hu
          have hres0inv : ∀ e ∈ res0.events, 1 ≤ e.day ∧ e.day ≤ parsed.length := by
            intro e he
            rcases hev e he with ⟨e0, he0, hd0⟩ | hd
            · rw [← hd0]; exact hinv e0 he0
            · injection hd with hd
              rw [← hd]
              exact ⟨hday1, by omega⟩
          rcases hbr with ⟨hgd, hres1, hparsed1⟩ | ⟨hgd, hres1, hparsed1⟩
          · rw [hres1, hparsed1] at h
            exact ih _ parsed res' parsed' h hres0inv
          · rw [hres1, hparsed1] at h
            have hres' := ih res0 (parsed.set (day - 1) true) res' parsed' h
              (fun e he => by rw [List.length_set]; exact hres0inv e he)
            intro e he
            have hb := hres' e he
            rwa [List.length_set] at hb

/-- Claim C9, amended.  Whenever `parse_calendar` on a fresh accumulator
returns normally, every stored event's day lies in `[1, days_in_month]` —
because an out-of-range day panics at the coverage-marking step; but the
insert operations themselves perform no range check, so the invariant is not
preserved operation by operation: a cell with an out-of-range marker first
stores its events and only then aborts the whole parse (see the
counterexample). -/
theorem c9_day_invariant :
    ∀ (y m : Nat) (cells : List (List Node)) (res' : MonthResult),
    1 ≤ m → m ≤ 12 →
    parse_calendar (MonthResult.new y m) cells = .ok res' →
    ∀ e ∈ res'.events, 1 ≤ e.day ∧ e.day ≤ days_in_month y m := by
  intro y m cells res' _hm1 _hm2 h
  unfold parse_calendar at h
  rcases hg : parse_calendar_go (MonthResult.new y m)
      (List.replicate (MonthResult.new y m).days_in_month false) cells with e1 | ⟨res1, parsed1⟩
  · rw [hg] at h; injection h
  · rw [hg] at h
    dsimp only at h
    injection h with h
    subst h
    have hinv := go_days cells _ _ _ _ hg (fun e he => by simp [MonthResult.new] at he)
    intro e he
    have hb := hinv e he
    rwa [List.length_replicate] at hb

theorem c9_day_invariant_witness :
    parse_calendar (MonthResult.new 2024 1) [[.text "5", .text "Lesson"]] =
      .ok { year := 2024, month := 1, events := [.FullDay 5 "Lesson"],
            errors := (List.range 31).filterMap
              (fun i => if i = 4 then none else some (.didNotParse (i + 1))) } ∧
    (1 ≤ Event.day (.FullDay 5 "Lesson") ∧
      Event.day (.FullDay 5 "Lesson") ≤ days_in_month 2024 1) :=
  ⟨by decide,
   c9_day_invariant 2024 1 [[.text "5", .text "Lesson"]]
     { year := 2024, month := 1, events := [.FullDay 5 "Lesson"],
       errors := (List.range 31).filterMap
         (fun i => if i = 4 then none else some (.didNotParse (i + 1))) }
     (by decide) (by decide) (by decide) (.FullDay 5 "Lesson") (by decide)⟩

/-- Claim C4.  After `parse_calendar` on a fresh month accumulator returns,
for each day `d` of the month exactly one of three signals holds: `d` was
reported by exactly one cell (and neither coverage error mentions `d`), or a
day-not-covered error was recorded for `d` (and `d` was reported by no cell,
with no covered-twice error), or a day-covered-twice error was recorded for
`d` (and never both errors) — never zero signals, never contradictory ones.
Moreover the coverage pass is additive: the returned accumulator's events
are exactly the events collected by the cell loop, and they serialize
identically, so coverage errors never remove or block any collected event
from serialization. -/
theorem c4_coverage_exactly_one :
    ∀ (y m : Nat) (cells : List (List Node)) (res' : MonthResult),
    1 ≤ m → m ≤ 12 →
    parse_calendar (MonthResult.new y m) cells = .ok res' →
    (∀ d, 1 ≤ d → d ≤ days_in_month y m →
      ((touches d cells = 1 ∧ ParseError.didNotParse d ∉ res'.errors ∧
          ParseError.parsedTwice d ∉ res'.errors) ∨
       (touches d cells ≠ 1 ∧ ParseError.didNotParse d ∈ res'.errors ∧
          ParseError.parsedTwice d ∉ res'.errors) ∨
       (touches d cells ≠ 1 ∧ ParseError.didNotParse d ∉ res'.errors ∧
          ParseError.parsedTwice d ∈ res'.errors))) ∧
    (∀ (res1 : MonthResult) (parsed1 : List Bool),
      parse_calendar_go (MonthResult.new y m)
          (List.replicate (MonthResult.new y m).days_in_month false) cells =
        .ok (res1, parsed1) →
      res'.events = res1.events ∧
      ∀ user pass now, res'.events_as_ics user pass now =
        res1.events_as_ics user pass now) := by
  intro y m cells res' _hm1 _hm2 h
  unfold parse_calendar at h
  rcases hg : parse_calendar_go (MonthResult.new y m)
      (List.replicate (MonthResult.new y m).days_in_month false) cells with e1 | ⟨res1, parsed1⟩
  · rw [hg] at h; injection h
  · rw [hg] at h
    dsimp only at h
    injection h with h
    subst h
    obtain ⟨hlen, hstat⟩ := go_cov cells _ _ _ _ hg
    constructor
    · intro d hd1 hd2
      have hiL : d - 1 <
          (List.replicate (MonthResult.new y m).days_in_month false).length := by
        rw [List.length_replicate]
        show d - 1 < days_in_month y m
        omega
      obtain ⟨h1, h2, h3⟩ := hstat (d - 1) hiL
      have hde : d - 1 + 1 = d := by omega
      rw [hde] at h1 h2 h3
      rw [getD_replicate] at h1 h2
      have hnil : (MonthResult.new y m).errors = ([] : List ParseError) := rfl
      rw [hnil] at h2 h3
      have h2' : (ParseError.parsedTwice d ∈ res1.errors) ↔ 2 ≤ touches d cells := by
        rw [h2]; simp
      have h3' : ParseError.didNotParse d ∉ res1.errors := by
        rw [h3]; simp
      have hmiss : (ParseError.didNotParse d ∈ missingErrors 0 parsed1) ↔
          touches d cells = 0 := by
        rw [mem_missingErrors]
        constructor
        · rintro ⟨j, hj, hgj, hdj⟩
          have hjd : j = d - 1 := by omega
          subst hjd
          rw [h1] at hgj
          simp at hgj
          omega
        · intro hT0
          refine ⟨d - 1, ?_, ?_, by omega⟩
          · rw [hlen]; exact hiL
          · rw [h1, hT0]
            simp
      have hptmiss : ParseError.parsedTwice d ∉ missingErrors 0 parsed1 := by
        intro hx
        obtain ⟨dd, hdd⟩ := missingErrors_shape parsed1 0 _ hx
        simp at hdd
      have hpt : (ParseError.parsedTwice d ∈
          res1.errors ++ missingErrors 0 parsed1) ↔ 2 ≤ touches d cells := by
        rw [List.mem_append]
        constructor
        · rintro (hx | hx)
          · exact h2'.mp hx
          · exact absurd hx hptmiss
        · intro hx
          exact .inl (h2'.mpr hx)
      have hdn : (ParseError.didNotParse d ∈
          res1.errors ++ missingErrors 0 parsed1) ↔ touches d cells = 0 := by
        rw [List.mem_append]
        constructor
        · rintro (hx | hx)
          · exact absurd hx h3'
          · exact hmiss.mp hx
        · intro hx
          exact .inr (hmiss.mpr hx)
      rcases Nat.lt_or_ge (touches d cells) 1 with hc | hc
      · exact .inr (.inl ⟨by omega, hdn.mpr (by omega),
          fun hx => by have := hpt.mp hx; omega⟩)
      · rcases Nat.lt_or_ge (touches d cells) 2 with hc2 | hc2
        · exact .inl ⟨by omega, fun hx => by have := hdn.mp hx; omega,
            fun hx => by have := hpt.mp hx; omega⟩
        · exact .inr (.inr ⟨by omega, fun hx => by have := hdn.mp hx; omega,
            hpt.mpr hc2⟩)
    · intro res1' parsed1' hg'
      injection hg' with hg'
      injection hg' with ha hb
      subst ha
      exact ⟨rfl, fun user pass now => rfl⟩

theorem c4_coverage_exactly_one_witness :
    parse_calendar (MonthResult.new 2024 1) [] =
      .ok { year := 2024, month := 1, events := [],
            errors := (List.range 31).map (fun i => ParseError.didNotParse (i + 1)) } ∧
    ((touches 5 [] = 1 ∧
        ParseError.didNotParse 5 ∉
          (List.range 31).map (fun i => ParseError.didNotParse (i + 1)) ∧
        ParseError.parsedTwice 5 ∉
          (List.range 31).map (fun i => ParseError.didNotParse (i + 1))) ∨
     (touches 5 [] ≠ 1 ∧
        ParseError.didNotParse 5 ∈
          (List.range 31).map (fun i => ParseError.didNotParse (i + 1)) ∧
        ParseError.parsedTwice 5 ∉
          (List.range 31).map (fun i => ParseError.didNotParse (i + 1))) ∨
     (touches 5 [] ≠ 1 ∧
        ParseError.didNotParse 5 ∉
          (List.range 31).map (fun i => ParseError.didNotParse (i + 1)) ∧
        ParseError.parsedTwice 5 ∈
          (List.range 31).map (fun i => ParseError.didNotParse (i + 1)))) :=
  ⟨by decide,
   (c4_coverage_exactly_one 2024 1 []
     { year := 2024, month := 1, events := [],
       errors := (List.range 31).map (fun i => ParseError.didNotParse (i + 1)) }
     (by decide) (by decide) (by decide)).1 5 (by decide) (by decide)⟩

/-! ### Civil-time lemmas for the Tokyo-to-UTC conversion -/

theorem dim_pos (y m : Nat) : 1 ≤ days_in_month y m := by
  unfold days_in_month
  split
  · split <;> omega
  · split <;> omega

theorem daysBeforeMonth_one (y : Nat) : daysBeforeMonth y 1 = 0 := by
  simp [daysBeforeMonth]

theorem daysBeforeMonth_step (y m : Nat) (hm : 1 ≤ m) :
    daysBeforeMonth y (m + 1) = daysBeforeMonth y m + days_in_month y m := by
  unfold daysBeforeMonth
  rw [show m + 1 - 1 = (m - 1) + 1 by omega]
  rw [Finset.sum_range_succ]
  rw [show m - 1 + 1 = m by omega]

set_option maxHeartbeats 1600000 in
theorem dby_step (y : Nat) :
    daysBeforeYear (y + 1) = daysBeforeYear y + 365 + (if isLeap y then 1 else 0) := by
  have hiff : (isLeap y = true) ↔ (y % 4 = 0 ∧ (¬ y % 100 = 0 ∨ y % 400 = 0)) := by
    simp [isLeap]
  by_cases hL : isLeap y = true
  · rw [if_pos hL]
    rw [hiff] at hL
    unfold daysBeforeYear
    omega
  · rw [if_neg hL]
    rw [hiff] at hL
    unfold daysBeforeYear
    omega

theorem dbm_twelve (y : Nat) :
    daysBeforeMonth y 12 = 334 + (if isLeap y then 1 else 0) := by
  rcases hb : isLeap y with _ | _ <;>
    norm_num [daysBeforeMonth, Finset.sum_range_succ, days_in_month, hb]

theorem tokyo_conserve : ∀ (y m d h mi : Nat), 1 ≤ y → 1 ≤ m → m ≤ 12 →
    1 ≤ d → d ≤ days_in_month y m → h ≤ 23 →
    totalMinutesDT (tokyoToUtc y m d h mi) + 9 * 60 =
      totalMinutesDT { year := y, month := m, day := d, hour := h, minute := mi } := by
  intro y m d h mi hy hm1 hm2 hd1 hd2 hh
  unfold tokyoToUtc
  by_cases h9 : h ≥ 9
  · rw [if_pos h9]
    unfold totalMinutesDT
    dsimp only
    generalize daysBeforeYear y + daysBeforeMonth y m + (d - 1) = D
    omega
  · rw [if_neg h9]
    unfold prevDay
    by_cases hdgt : d > 1
    · rw [if_pos hdgt]
      unfold totalMinutesDT
      dsimp only
      generalize daysBeforeYear y + daysBeforeMonth y m = B
      omega
    · rw [if_neg hdgt]
      have hd1' : d = 1 := by omega
      subst hd1'
      by_cases hmgt : m > 1
      · rw [if_pos hmgt]
        unfold totalMinutesDT
        dsimp only
        have hstep : daysBeforeMonth y m =
            daysBeforeMonth y (m - 1) + days_in_month y (m - 1) := by
          have hs := daysBeforeMonth_step y (m - 1) (by omega)
          rw [show m - 1 + 1 = m by omega] at hs
          exact hs
        rw [hstep]
        have hdim1 : 1 ≤ days_in_month y (m - 1) := dim_pos y (m - 1)
        generalize hK : days_in_month y (m - 1) = K at hdim1 ⊢
        generalize daysBeforeYear y = A
        generalize daysBeforeMonth y (m - 1) = B
        omega
      · rw [if_neg hmgt]
        have hm1' : m = 1 := by omega
        subst hm1'
        unfold totalMinutesDT
        dsimp only
        obtain ⟨y', rfl⟩ : ∃ y', y = y' + 1 := ⟨y - 1, by omega⟩
        rw [show y' + 1 - 1 = y' by omega]
        rw [dby_step y']
        rw [daysBeforeMonth_one]
        rw [dbm_twelve y']
        generalize daysBeforeYear y' = A
        rcases hb : isLeap y' with _ | _ <;> simp <;> omega

/-- Claim C7.  `Event::as_ics` produces one record with the fields in fixed
order — identifier (UID), generation timestamp (DTSTAMP), start, end, label
(SUMMARY), source-URL reference — between BEGIN:VEVENT/END:VEVENT markers.
A `FullDay` event encodes start and end as the same whole-day date in
`VALUE=DATE` form; a `Timed` event (with valid calendar data, per the data
model's `Time` invariant) renders start and end as `YYYYMMDDTHHMMSSZ` UTC
stamps obtained by interpreting the civil data in the fixed Asia/Tokyo
timezone and converting to UTC — a conversion that shifts the civil timeline
by exactly nine hours, as the last conjunct states. -/
theorem c7_serialization :
    (∀ (year month day : Nat) (text user pass now : String),
      as_ics (.FullDay day text) year month user pass now =
        .ok ("BEGIN:VEVENT\nUID:" ++ toString (eventHash (.FullDay day text)) ++
          "@shinbukan-ics\nDTSTAMP:" ++ now ++ "\n" ++
          ("DTSTART;VALUE=" ++ ("DATE:" ++ pad4 year ++ pad2 month ++ pad2 day)) ++
          "\n" ++
          ("DTEND;VALUE=" ++ ("DATE:" ++ pad4 year ++ pad2 month ++ pad2 day)) ++
          "\nSUMMARY:" ++ text ++ "\nURL:" ++ url_for user pass year month ++
          "\nEND:VEVENT\n")) ∧
    (∀ (year month day : Nat) (f t : Time) (text user pass now : String),
      icsValid year month day f t →
      as_ics (.Timed day f t text) year month user pass now =
        .ok ("BEGIN:VEVENT\nUID:" ++ toString (eventHash (.Timed day f t text)) ++
          "@shinbukan-ics\nDTSTAMP:" ++ now ++ "\n" ++
          ("DTSTART:" ++ fmtStamp (tokyoToUtc year month day f.hours f.minutes)) ++
          "\n" ++
          ("DTEND:" ++ fmtStamp (tokyoToUtc year month day t.hours t.minutes)) ++
          "\nSUMMARY:" ++ text ++ "\nURL:" ++ url_for user pass year month ++
          "\nEND:VEVENT\n")) ∧
    (∀ (y m d h mi : Nat), 1 ≤ y → 1 ≤ m → m ≤ 12 → 1 ≤ d →
      d ≤ days_in_month y m → h ≤ 23 →
      totalMinutesDT (tokyoToUtc y m d h mi) + 9 * 60 =
        totalMinutesDT { year := y, month := m, day := d, hour := h, minute := mi }) := by
  refine ⟨fun year month day text user pass now => rfl,
    fun year month day f t text user pass now hv => ?_, tokyo_conserve⟩
  unfold as_ics
  dsimp only
  rw [if_pos hv]

theorem c7_serialization_witness :
    icsValid 2024 5 10 { hours := 14, minutes := 0 } { hours := 16, minutes := 30 } ∧
    as_ics (.Timed 10 { hours := 14, minutes := 0 } { hours := 16, minutes := 30 }
        "Practice") 2024 5 "u" "p" "20000101T000000Z" =
      .ok ("BEGIN:VEVENT\nUID:" ++
        toString (eventHash (.Timed 10 { hours := 14, minutes := 0 }
          { hours := 16, minutes := 30 } "Practice")) ++
        "@shinbukan-ics\nDTSTAMP:" ++ "20000101T000000Z" ++ "\n" ++
        ("DTSTART:" ++ fmtStamp (tokyoToUtc 2024 5 10 14 0)) ++ "\n" ++
        ("DTEND:" ++ fmtStamp (tokyoToUtc 2024 5 10 16 30)) ++
        "\nSUMMARY:" ++ "Practice" ++ "\nURL:" ++ url_for "u" "p" 2024 5 ++
        "\nEND:VEVENT\n") ∧
    fmtStamp (tokyoToUtc 2024 5 10 14 0) = "20240510T050000Z" ∧
    totalMinutesDT (tokyoToUtc 2024 5 10 14 0) + 9 * 60 =
      totalMinutesDT { year := 2024, month := 5, day := 10, hour := 14, minute := 0 } :=
  ⟨by decide,
   c7_serialization.2.1 2024 5 10 _ _ "Practice" "u" "p" "20000101T000000Z" (by decide),
   by decide,
   c7_serialization.2.2 2024 5 10 14 0 (by decide) (by decide) (by decide)
     (by decide) (by decide) (by decide)⟩

end Shinbukan
